import Mathlib

/-
  Shallow embedding of the evio event-loop core (src/evio_unix.go).

  Pure data is carried directly; syscall outcomes (accept, read, write,
  recvfrom, SetNonblock) are explicit environment parameters of each step
  function.  Observable callback invocations and syscalls are collected in
  a trace.  Go mutates a conn in place through the pointer stored in
  l.fdconns; here every step writes the updated conn record back into the
  map, which is equivalent whenever the conn being stepped is the one the
  map holds at its fd (the only way the dispatcher ever reaches a step).
-/

namespace Evio

/-- The Action enum of the package: None, Detach, Close, Shutdown. -/
inductive Action where
  | None
  | Detach
  | Close
  | Shutdown
deriving DecidableEq, Repr

/-- Errors returned by the modelled syscalls: EAGAIN or some other errno. -/
inductive Err where
  | eagain
  | other (code : Nat)
deriving DecidableEq, Repr

/-- Registered epoll interest for an fd: read-only or read+write. -/
inductive EvMask where
  | read
  | readWrite
deriving DecidableEq, Repr

/-- The Go error results the loop functions return: nil is modelled by
Option, errClosing by closing, any other error by sys. -/
inductive GoErr where
  | closing
  | sys (code : Nat)
deriving DecidableEq, Repr

/-- syscall.SockaddrInet6: port, zone id and a 16-byte address. -/
structure Sockaddr6 where
  port : Nat
  zoneId : Nat
  addr : List Nat
deriving DecidableEq, Repr

/-- A remote socket address as returned by accept or recvfrom. -/
inductive Sockaddr where
  | inet4 (port a0 a1 a2 a3 : Nat)
  | inet6 (sa : Sockaddr6)
  | otherFamily
deriving DecidableEq, Repr

/-- Network addresses (net.Addr). Listener addresses are abstract. -/
inductive Addr where
  | ofSa6 (sa : Sockaddr6)
  | ofSa (sa : Sockaddr)
  | bound (i : Nat)
deriving DecidableEq, Repr

/-- Modelled from the spec: internal.SockaddrToAddr applied to the
SockaddrInet6 synthesized on the UDP path; the internal package is not
part of src/, the spec only requires the conversion to carry the sender
address through, so it is embedded as a constructor. -/
def sockaddrToAddr6 (sa : Sockaddr6) : Addr := Addr.ofSa6 sa

/-- Modelled from the spec: internal.SockaddrToAddr applied to the raw
remote sockaddr captured at accept (used by loopOpened). -/
def sockaddrToAddr (sa : Sockaddr) : Addr := Addr.ofSa sa

/-- The conn struct: per-fd connection state. The opaque user ctx and the
loop back-reference (used only by Wake to post a note) carry no state the
core steps read, and are omitted. -/
structure Conn where
  fd : Nat
  lnidx : Nat
  out : List Nat
  sa : Sockaddr
  reuse : Bool
  opened : Bool
  action : Action
  addrIndex : Nat
  localAddr : Option Addr
  remoteAddr : Option Addr
deriving DecidableEq, Repr

/-- The zero value of the conn struct. -/
def emptyConn : Conn :=
  { fd := 0, lnidx := 0, out := [], sa := Sockaddr.otherFamily, reuse := false,
    opened := false, action := Action.None, addrIndex := 0,
    localAddr := none, remoteAddr := none }

/-- A listener: its fd, bound address, whether it is a packet (UDP)
listener (ln.pconn != nil) and whether ln is a *net.TCPListener. -/
structure Listener where
  fd : Nat
  lnaddr : Addr
  isPacket : Bool
  isTCP : Bool
deriving DecidableEq, Repr

/-- Load balancing modes. -/
inductive LoadBalance where
  | Random
  | RoundRobin
  | LeastConnections
deriving DecidableEq, Repr

/-- Options returned by the Opened callback. -/
structure Opts where
  reuseInputBuffer : Bool
  tcpKeepAlive : Nat
deriving DecidableEq, Repr

/-- The callbacks the core invokes; a none field is a nil Go callback. -/
structure Events where
  opened : Option (Conn → List Nat × Opts × Action)
  data : Option (Conn → List Nat → List Nat × Action)
  closed : Option (Conn → Option Err → Action)
  detached : Option (Conn → Nat → Action)
  hasPreWrite : Bool
  tick : Option (Nat × Action)

/-- The per-loop count/idx view another loop reads atomically when
balancing. -/
structure LoopView where
  idx : Nat
  count : Int
deriving DecidableEq, Repr

/-- One event loop: its index, the fd -> conn map, the connection count
and the registered poll interest per fd.  The shared 64 KiB packet buffer
holds no state between steps (its contents for a read are the read
environment), so it is not carried. -/
structure Loop where
  idx : Nat
  fdconns : List (Nat × Conn)
  count : Int
  poll : List (Nat × EvMask)
deriving DecidableEq, Repr

/-- The server state a loop step reads: the event vector, listeners, the
balancing mode, the shared accept counter (a uintptr) and the atomic view
of every loop used by the balancer.  The only server field a step writes
is accepted, so steps return the new counter rather than a new server. -/
structure Server where
  events : Events
  lns : List Listener
  balance : LoadBalance
  accepted : Nat
  loops : List LoopView

/-- Observable callback invocations and syscalls, in order. -/
inductive Ev where
  | openedCB (c : Conn)
  | dataCB (c : Conn) (input : List Nat) (fresh : Bool)
  | closedCB (c : Conn) (err : Option Err)
  | detachedCB (c : Conn) (fd : Nat)
  | preWrite
  | writeSys (fd : Nat) (bytes : List Nat)
  | sendto (fd : Nat) (out : List Nat) (sa : Sockaddr)
  | closeFd (fd : Nat)
  | setNonblock (fd : Nat) (enabled : Bool)
  | setKeepAlive (fd : Nat) (secs : Nat)
  | tickSend (delay : Nat)
deriving DecidableEq, Repr

/-- Lookup in a Go map modelled as an association list. -/
def lookupFd {α : Type} (m : List (Nat × α)) (k : Nat) : Option α :=
  match m with
  | [] => none
  | (k2, v) :: rest => if k2 = k then some v else lookupFd rest k

/-- Go map assignment m[k] = v: replace the binding if present, else add. -/
def insertFd {α : Type} (m : List (Nat × α)) (k : Nat) (v : α) : List (Nat × α) :=
  match m with
  | [] => [(k, v)]
  | (k2, v2) :: rest => if k2 = k then (k, v) :: rest else (k2, v2) :: insertFd rest k v

/-- Go delete(m, k): drop the binding for k. -/
def eraseFd {α : Type} (m : List (Nat × α)) (k : Nat) : List (Nat × α) :=
  match m with
  | [] => []
  | (k2, v2) :: rest => if k2 = k then rest else (k2, v2) :: eraseFd rest k

theorem lookupFd_insertFd_self {α : Type} (m : List (Nat × α)) (k : Nat) (v : α) :
    lookupFd (insertFd m k v) k = some v := by
  induction m with
  | nil => simp [insertFd, lookupFd]
  | cons hd tl ih =>
    obtain ⟨k2, v2⟩ := hd
    by_cases h : k2 = k
    · simp [insertFd, lookupFd, h]
    · simp [insertFd, lookupFd, h, ih]

theorem lookupFd_eraseFd_self {α : Type} (m : List (Nat × α)) (k : Nat)
    (hnd : (m.map Prod.fst).Nodup) : lookupFd (eraseFd m k) k = none := by
  induction m with
  | nil => simp [eraseFd, lookupFd]
  | cons hd tl ih =>
    obtain ⟨k2, v2⟩ := hd
    simp only [List.map_cons, List.nodup_cons] at hnd
    by_cases h : k2 = k
    · subst h
      simp only [eraseFd, if_pos rfl]
      clear ih
      induction tl with
      | nil => simp [lookupFd]
      | cons hd2 tl2 ih2 =>
        obtain ⟨k3, v3⟩ := hd2
        simp only [List.map_cons, List.mem_cons, List.nodup_cons] at hnd
        have hk3 : k3 ≠ k2 := fun h2 => hnd.1 (Or.inl h2.symm)
        simp only [lookupFd, if_neg hk3]
        exact ih2 ⟨fun hm => hnd.1 (Or.inr hm), hnd.2.2⟩
    · simp only [eraseFd, if_neg h, lookupFd, if_neg h]
      exact ih hnd.2

theorem length_eraseFd_of_mem {α : Type} (m : List (Nat × α)) (k : Nat) (v : α)
    (hfind : lookupFd m k = some v) : (eraseFd m k).length + 1 = m.length := by
  induction m with
  | nil => simp [lookupFd] at hfind
  | cons hd tl ih =>
    obtain ⟨k2, v2⟩ := hd
    by_cases h : k2 = k
    · simp [eraseFd, h]
    · simp only [lookupFd, if_neg h] at hfind
      simp only [eraseFd, if_neg h, List.length_cons]
      rw [ih hfind]

theorem length_insertFd_of_absent {α : Type} (m : List (Nat × α)) (k : Nat) (v : α)
    (habs : lookupFd m k = none) : (insertFd m k v).length = m.length + 1 := by
  induction m with
  | nil => simp [insertFd]
  | cons hd tl ih =>
    obtain ⟨k2, v2⟩ := hd
    by_cases h : k2 = k
    · simp [lookupFd, h] at habs
    · simp only [lookupFd, if_neg h] at habs
      simp only [insertFd, if_neg h, List.length_cons]
      rw [ih habs]

/-- Result of the accept(2) syscall plus the SetNonblock that follows it. -/
structure AcceptRes where
  nfd : Nat
  sa : Sockaddr
  err : Option Err
  snbErr : Option Nat
deriving DecidableEq, Repr

/-- Result of one read(2) into the shared packet buffer: the bytes read
(n is their length) and the error, matching the Go pair (n, err). -/
structure ReadRes where
  bytes : List Nat
  err : Option Err
deriving DecidableEq, Repr

/-- Result of one write(2): bytes written and error. -/
structure WriteRes where
  n : Nat
  err : Option Err
deriving DecidableEq, Repr

/-- Result of one recvfrom(2) on a UDP listener. -/
structure RecvRes where
  bytes : List Nat
  sa : Sockaddr
  err : Option Err
deriving DecidableEq, Repr

/-- The current registration for an fd on a loop. -/
def maskOf (l : Loop) (fd : Nat) : Option EvMask := lookupFd l.poll fd

/-- The write-back plus conditional ModRead that ends loopOpened,
loopWrite and the default arm of loopAction:
if len(c.out) == 0 and c.action == None then l.poll.ModRead(c.fd). -/
def restoreRead (l : Loop) (c : Conn) : Loop :=
  { l with fdconns := insertFd l.fdconns c.fd c,
           poll := if c.out = [] ∧ c.action = Action.None
                   then insertFd l.poll c.fd EvMask.read else l.poll }

/-- The write-back plus conditional ModReadWrite that ends loopRead and
loopWake: if len(c.out) != 0 or c.action != None then ModReadWrite. -/
def restoreWrite (l : Loop) (c : Conn) : Loop :=
  { l with fdconns := insertFd l.fdconns c.fd c,
           poll := if c.out ≠ [] ∨ c.action ≠ Action.None
                   then insertFd l.poll c.fd EvMask.readWrite else l.poll }

/-- loopCloseConn: decrement count, delete the map entry, close the fd,
fire Closed when configured; Shutdown from Closed surfaces errClosing.
Closing the fd drops its kernel epoll registration but the source issues
no poll call, so l.poll is left as is; every property below reads the
mask only for fds still mapped in fdconns. -/
def loopCloseConn (s : Server) (l : Loop) (c : Conn) (err : Option Err) :
    Loop × List Ev × Option GoErr :=
  let l1 : Loop := { l with count := l.count - 1, fdconns := eraseFd l.fdconns c.fd }
  match s.events.closed with
  | none => (l1, [Ev.closeFd c.fd], none)
  | some f =>
    match f c err with
    | Action.Shutdown => (l1, [Ev.closeFd c.fd, Ev.closedCB c err], some GoErr.closing)
    | _ => (l1, [Ev.closeFd c.fd, Ev.closedCB c err], none)

/-- loopDetachConn: with no Detached callback it degrades to
loopCloseConn; otherwise ModDetach the fd, remove the conn, clear
non-blocking mode (whose failure aborts with that error) and hand the fd
to Detached; Shutdown from Detached surfaces errClosing. -/
def loopDetachConn (s : Server) (l : Loop) (c : Conn) (err : Option Err)
    (snbErr : Option Nat) : Loop × List Ev × Option GoErr :=
  match s.events.detached with
  | none => loopCloseConn s l c err
  | some f =>
    let l1 : Loop := { l with poll := eraseFd l.poll c.fd,
                              count := l.count - 1,
                              fdconns := eraseFd l.fdconns c.fd }
    match snbErr with
    | some code => (l1, [Ev.setNonblock c.fd false], some (GoErr.sys code))
    | none =>
      match f c c.fd with
      | Action.Shutdown =>
        (l1, [Ev.setNonblock c.fd false, Ev.detachedCB c c.fd], some GoErr.closing)
      | _ => (l1, [Ev.setNonblock c.fd false, Ev.detachedCB c c.fd], none)

/-- Whether s.lns[lnidx].ln is a *net.TCPListener (indexing out of range
would panic in Go; modelled as false). -/
def lnIsTCP (s : Server) (lnidx : Nat) : Bool :=
  match s.lns[lnidx]? with
  | some ln => ln.isTCP
  | none => false

/-- loopOpened: mark the conn opened, fill its addresses, fire Opened when
configured (seeding out, action, reuse, keep-alive), then ModRead when
out is empty and no action is pending. -/
def loopOpened (s : Server) (l : Loop) (c : Conn) : Loop × List Ev × Option GoErr :=
  let c1 : Conn :=
    { c with opened := true, addrIndex := c.lnidx,
             localAddr := (s.lns[c.lnidx]?).map Listener.lnaddr,
             remoteAddr := some (sockaddrToAddr c.sa) }
  match s.events.opened with
  | none => (restoreRead l c1, [], none)
  | some f =>
    let r := f c1
    let c2 : Conn := if r.1.length > 0 then { c1 with out := r.1 } else c1
    let c3 : Conn := { c2 with action := r.2.2, reuse := r.2.1.reuseInputBuffer }
    let ka : List Ev :=
      if r.2.1.tcpKeepAlive > 0 then
        if lnIsTCP s c.lnidx then [Ev.setKeepAlive c3.fd r.2.1.tcpKeepAlive] else []
      else []
    (restoreRead l c3, Ev.openedCB c1 :: ka, none)

/-- loopWrite: PreWrite, then one write of all of c.out; EAGAIN leaves
everything as is, any other error closes the conn; on success drop the
written prefix (all of it when n == len) and ModRead when drained with no
pending action. -/
def loopWrite (s : Server) (l : Loop) (c : Conn) (w : WriteRes) :
    Loop × List Ev × Option GoErr :=
  let pre : List Ev :=
    (if s.events.hasPreWrite then [Ev.preWrite] else []) ++ [Ev.writeSys c.fd c.out]
  match w.err with
  | some Err.eagain => (l, pre, none)
  | some e =>
    let r := loopCloseConn s l c (some e)
    (r.1, pre ++ r.2.1, r.2.2)
  | none =>
    let c1 : Conn := if w.n = c.out.length then { c with out := [] }
                     else { c with out := c.out.drop w.n }
    (restoreRead l c1, pre, none)

/-- loopAction: apply the pending action. Close and Detach delegate;
Shutdown returns errClosing leaving the conn untouched; any other value
is reset to None and the conditional ModRead runs. -/
def loopAction (s : Server) (l : Loop) (c : Conn) (snbErr : Option Nat) :
    Loop × List Ev × Option GoErr :=
  match c.action with
  | Action.Close => loopCloseConn s l c none
  | Action.Shutdown => (l, [], some GoErr.closing)
  | Action.Detach => loopDetachConn s l c none snbErr
  | Action.None =>
    (restoreRead l { c with action := Action.None }, [], none)

/-- loopWake: nothing happens without a Data callback; otherwise Data is
invoked with nil input, the returned action is installed, non-empty
returned bytes replace c.out, and ModReadWrite runs when out is non-empty
or an action is pending. -/
def loopWake (s : Server) (l : Loop) (c : Conn) : Loop × List Ev × Option GoErr :=
  match s.events.data with
  | none => (l, [], none)
  | some f =>
    let r := f c []
    let c1 : Conn := { c with action := r.2 }
    let c2 : Conn := if r.1.length > 0 then { c1 with out := r.1 } else c1
    (restoreWrite l c2, [Ev.dataCB c [] true], none)

/-- loopRead: one read into the shared buffer. Zero bytes or a non-EAGAIN
error closes the conn, EAGAIN returns, success hands the slice to Data
(a fresh copy unless c.reuse), installs the returned action and, when
non-empty, the returned bytes, then conditionally ModReadWrite. -/
def loopRead (s : Server) (l : Loop) (c : Conn) (r : ReadRes) :
    Loop × List Ev × Option GoErr :=
  if r.bytes.length = 0 ∨ r.err.isSome then
    if r.err = some Err.eagain then (l, [], none)
    else loopCloseConn s l c r.err
  else
    match s.events.data with
    | none => (restoreWrite l c, [], none)
    | some f =>
      let d := f c r.bytes
      let c1 : Conn := { c with action := d.2 }
      let c2 : Conn := if d.1.length > 0 then { c1 with out := d.1 } else c1
      (restoreWrite l c2, [Ev.dataCB c r.bytes (!c.reuse)], none)

/-- The ephemeral conn loopUDPRead synthesizes for a datagram from sa:
the zero conn with the listener addresses filled in. -/
def udpConn (s : Server) (lnidx : Nat) (sa6 : Sockaddr6) : Conn :=
  { emptyConn with addrIndex := lnidx,
                   localAddr := (s.lns[lnidx]?).map Listener.lnaddr,
                   remoteAddr := some (sockaddrToAddr6 sa6) }

/-- The SockaddrInet6 loopUDPRead builds from the sender sockaddr: an
inet4 address is mapped into the last four bytes, an inet6 one is copied,
anything else leaves the zero value. -/
def sa6OfSockaddr (sa : Sockaddr) : Sockaddr6 :=
  match sa with
  | Sockaddr.inet4 port a0 a1 a2 a3 =>
    { port := port, zoneId := 0, addr := List.replicate 12 0 ++ [a0, a1, a2, a3] }
  | Sockaddr.inet6 sa6 => sa6
  | Sockaddr.otherFamily => { port := 0, zoneId := 0, addr := List.replicate 16 0 }

/-- loopUDPRead: one recvfrom; errors and empty datagrams are dropped;
otherwise Data is invoked once on an ephemeral conn with a fresh copy of
the datagram, non-empty returned bytes are sent back to the sender
(preceded by PreWrite when configured) and Shutdown surfaces errClosing.
The loop state is never touched. -/
def loopUDPRead (s : Server) (l : Loop) (lnidx fd : Nat) (r : RecvRes) :
    Loop × List Ev × Option GoErr :=
  if r.err.isSome ∨ r.bytes.length = 0 then (l, [], none)
  else
    match s.events.data with
    | none => (l, [], none)
    | some f =>
      let c := udpConn s lnidx (sa6OfSockaddr r.sa)
      let d := f c r.bytes
      let sendTr : List Ev :=
        if d.1.length > 0 then
          (if s.events.hasPreWrite then [Ev.preWrite] else []) ++ [Ev.sendto fd d.1 r.sa]
        else []
      let e : Option GoErr := if d.2 = Action.Shutdown then some GoErr.closing else none
      (l, Ev.dataCB c r.bytes true :: sendTr, e)

/-- Go int64 reinterpretation of a uintptr value. -/
def goInt64 (u : Nat) : Int :=
  if u % 2 ^ 64 < 2 ^ 63 then Int.ofNat (u % 2 ^ 64)
  else Int.ofNat (u % 2 ^ 64) - 2 ^ 64

/-- The balancing decision of loopAccept: with more than one loop,
LeastConnections declines when any other loop has a strictly smaller
count, RoundRobin declines when the counter modulo the loop count does
not select this loop. -/
def declines (s : Server) (l : Loop) : Bool :=
  if 1 < s.loops.length then
    match s.balance with
    | LoadBalance.LeastConnections =>
      s.loops.any (fun lp => (lp.idx != l.idx) && decide (lp.count < l.count))
    | LoadBalance.RoundRobin =>
      decide (Int.tmod (goInt64 s.accepted) ((s.loops.length : Int)) ≠ (l.idx : Int))
    | LoadBalance.Random => false
  else false

/-- The accept counter after a non-declined visit: bumped (with uintptr
wraparound) exactly when the round-robin arm ran. -/
def acceptedAfter (s : Server) : Nat :=
  if 1 < s.loops.length ∧ s.balance = LoadBalance.RoundRobin
  then (s.accepted + 1) % 2 ^ 64 else s.accepted

/-- The body loopAccept runs for the listener whose fd matched, at
position i in s.lns: balancing (with the round-robin counter bump on
acceptance), then the UDP path for packet listeners, else accept(2),
SetNonblock, conn construction, map insert, AddReadWrite and count
increment.  The first component is the new value of s.accepted. -/
def acceptBody (s : Server) (l : Loop) (fd : Nat) (ar : AcceptRes) (rr : RecvRes)
    (i : Nat) (ln : Listener) : Nat × Loop × List Ev × Option GoErr :=
  if declines s l then (s.accepted, l, [], none)
  else
    let acc1 : Nat := acceptedAfter s
    if ln.isPacket then
      let r := loopUDPRead s l i fd rr
      (acc1, r.1, r.2.1, r.2.2)
    else
      match ar.err with
      | some Err.eagain => (acc1, l, [], none)
      | some (Err.other code) => (acc1, l, [], some (GoErr.sys code))
      | none =>
        match ar.snbErr with
        | some code => (acc1, l, [Ev.setNonblock ar.nfd true], some (GoErr.sys code))
        | none =>
          let c : Conn := { emptyConn with fd := ar.nfd, sa := ar.sa, lnidx := i }
          let l1 : Loop :=
            { l with fdconns := insertFd l.fdconns c.fd c,
                     poll := insertFd l.poll c.fd EvMask.readWrite,
                     count := l.count + 1 }
          (acc1, l1, [Ev.setNonblock ar.nfd true], none)

/-- The listener scan of loopAccept: find the listener owning fd and run
the body; no match returns nil with nothing changed. -/
def loopAcceptGo (s : Server) (l : Loop) (fd : Nat) (ar : AcceptRes) (rr : RecvRes) :
    Nat → List Listener → Nat × Loop × List Ev × Option GoErr
  | _, [] => (s.accepted, l, [], none)
  | i, ln :: rest =>
    if ln.fd = fd then acceptBody s l fd ar rr i ln
    else loopAcceptGo s l fd ar rr (i + 1) rest

/-- loopAccept: scan s.lns for the listener with this fd. -/
def loopAccept (s : Server) (l : Loop) (fd : Nat) (ar : AcceptRes) (rr : RecvRes) :
    Nat × Loop × List Ev × Option GoErr :=
  loopAcceptGo s l fd ar rr 0 s.lns

/-- A note injected through the poller trigger. -/
inductive Note where
  | duration (d : Nat)
  | errNote (e : GoErr)
  | connNote (c : Conn)
deriving Repr

/-- loopNote: a duration runs Tick and sends the next delay; an error note
is returned as is; a conn note is dropped when the fd no longer maps to
that conn (Go compares the conn pointers; object identity is modelled as
equality of the conn records), else loopWake runs.  The ticker only
triggers durations when Tick is configured, so the none arm is
unreachable in the source. -/
def loopNote (s : Server) (l : Loop) (note : Note) : Loop × List Ev × Option GoErr :=
  match note with
  | Note.duration _ =>
    match s.events.tick with
    | none => (l, [], none)
    | some td =>
      let e : Option GoErr := if td.2 = Action.Shutdown then some GoErr.closing else none
      (l, [Ev.tickSend td.1], e)
  | Note.errNote e => (l, [], some e)
  | Note.connNote c =>
    if lookupFd l.fdconns c.fd ≠ some c then (l, [], none)
    else loopWake s l c

/-- The syscall outcomes one dispatch may consume. -/
structure DispatchEnv where
  ar : AcceptRes
  rr : RecvRes
  wr : WriteRes
  rd : ReadRes
  snbErr : Option Nat
deriving DecidableEq, Repr

/-- The dispatch closure passed to poll.Wait: fd 0 is the note sentinel;
otherwise the fd is looked up and the first matching arm of the
switch runs: accept when unmapped, open before opened, write while out is
non-empty, the pending action, else read. -/
def dispatch (s : Server) (l : Loop) (fd : Nat) (note : Note) (env : DispatchEnv) :
    Nat × Loop × List Ev × Option GoErr :=
  if fd = 0 then (s.accepted, loopNote s l note)
  else
    match lookupFd l.fdconns fd with
    | none => loopAccept s l fd env.ar env.rr
    | some c =>
      if c.opened = false then (s.accepted, loopOpened s l c)
      else if c.out.length > 0 then (s.accepted, loopWrite s l c env.wr)
      else if c.action ≠ Action.None then (s.accepted, loopAction s l c env.snbErr)
      else (s.accepted, loopRead s l c env.rd)

/-- The events-registered invariant of the spec for one conn: the mask is
read-only iff out is empty and no action is pending, else read+write. -/
abbrev maskOK (m : Option EvMask) (c : Conn) : Prop :=
  m = some (if c.out = [] ∧ c.action = Action.None then EvMask.read else EvMask.readWrite)

/-- The count invariant: loop.count equals the number of map entries. -/
abbrev countOK (l : Loop) : Prop := l.count = (l.fdconns.length : Int)

/-- The five state-machine steps of the claim, each with the syscall
outcomes it consumes. -/
inductive StepKind where
  | openS
  | writeS (w : WriteRes)
  | actionS (snbErr : Option Nat)
  | readS (r : ReadRes)
  | wakeS

/-- Run one state-machine step on a conn. -/
def runStep (s : Server) (l : Loop) (c : Conn) : StepKind → Loop × List Ev × Option GoErr
  | StepKind.openS => loopOpened s l c
  | StepKind.writeS w => loopWrite s l c w
  | StepKind.actionS e => loopAction s l c e
  | StepKind.readS r => loopRead s l c r
  | StepKind.wakeS => loopWake s l c

/-- What holds on entry to each step: the dispatch guard for the step
plus the registration state the ensemble guarantees there (read+write
straight after accept for the open step, the invariant elsewhere). -/
abbrev stepPre (l : Loop) (c : Conn) : StepKind → Prop
  | StepKind.openS => maskOf l c.fd = some EvMask.readWrite
  | StepKind.writeS _ => c.out ≠ [] ∧ maskOK (maskOf l c.fd) c
  | StepKind.actionS _ => maskOK (maskOf l c.fd) c
  | StepKind.readS _ => c.out = [] ∧ c.action = Action.None ∧ maskOK (maskOf l c.fd) c
  | StepKind.wakeS => maskOK (maskOf l c.fd) c

/-- What holds after the step for a conn still mapped at the fd: the full
invariant after open, write, action and read; after a wake only the
read+write direction (the wake path never downgrades to read-only). -/
abbrev stepPost (k : StepKind) (fd : Nat) (l2 : Loop) : Prop :=
  ∀ c2, lookupFd l2.fdconns fd = some c2 →
    match k with
    | StepKind.wakeS =>
      ¬(c2.out = [] ∧ c2.action = Action.None) → maskOf l2 fd = some EvMask.readWrite
    | _ => maskOK (maskOf l2 fd) c2

/-- Recognizer for Data invocations in a trace. -/
def isDataCB : Ev → Bool
  | Ev.dataCB _ _ _ => true
  | _ => false

/-- Event vector that echoes input back and accepts every close. -/
def echoEvents : Events :=
  { opened := none, data := some (fun _ bs => (bs, Action.None)),
    closed := some (fun _ _ => Action.None), detached := none,
    hasPreWrite := false, tick := none }

/-- Event vector whose Data returns nothing. -/
def quietEvents : Events :=
  { opened := none, data := some (fun _ _ => ([], Action.None)),
    closed := some (fun _ _ => Action.None), detached := none,
    hasPreWrite := false, tick := none }

/-- Event vector whose Data pushes two bytes on every call. -/
def pushEvents : Events :=
  { opened := none, data := some (fun _ _ => ([9, 9], Action.None)),
    closed := some (fun _ _ => Action.None), detached := none,
    hasPreWrite := false, tick := none }

/-- A TCP listener on fd 5. -/
def ln5 : Listener := { fd := 5, lnaddr := Addr.bound 0, isPacket := false, isTCP := true }

/-- A UDP listener on fd 6. -/
def udpLn : Listener := { fd := 6, lnaddr := Addr.bound 1, isPacket := true, isTCP := false }

/-- Single-loop echo server. -/
def srvEcho : Server :=
  { events := echoEvents, lns := [ln5, udpLn], balance := LoadBalance.Random,
    accepted := 0, loops := [{ idx := 0, count := 0 }] }

/-- Single-loop server with the quiet event vector. -/
def srvQuiet : Server :=
  { events := quietEvents, lns := [ln5], balance := LoadBalance.Random,
    accepted := 0, loops := [{ idx := 0, count := 0 }] }

/-- Single-loop server with the pushing event vector. -/
def srvPush : Server :=
  { events := pushEvents, lns := [ln5], balance := LoadBalance.Random,
    accepted := 0, loops := [{ idx := 0, count := 0 }] }

/-- Two-loop round-robin server. -/
def srvRR : Server :=
  { events := echoEvents, lns := [ln5], balance := LoadBalance.RoundRobin,
    accepted := 0, loops := [{ idx := 0, count := 0 }, { idx := 1, count := 0 }] }

/-- An opened idle conn on fd 7. -/
def conn7 : Conn := { emptyConn with fd := 7, opened := true }

/-- The same conn with an unwritten tail. -/
def conn7tail : Conn := { conn7 with out := [1, 2, 3] }

/-- The same conn with a pending Close action. -/
def conn7close : Conn := { conn7 with action := Action.Close }

/-- A freshly accepted, not yet opened conn on fd 7. -/
def conn7new : Conn := { emptyConn with fd := 7 }

/-- Loop holding the idle conn, registered read-only. -/
def loop7 : Loop := { idx := 0, fdconns := [(7, conn7)], count := 1, poll := [(7, EvMask.read)] }

/-- Loop holding the conn with a tail, registered read+write. -/
def loop7tail : Loop :=
  { idx := 0, fdconns := [(7, conn7tail)], count := 1, poll := [(7, EvMask.readWrite)] }

/-- Loop holding the conn with the pending Close, registered read+write. -/
def loop7close : Loop :=
  { idx := 0, fdconns := [(7, conn7close)], count := 1, poll := [(7, EvMask.readWrite)] }

/-- Loop holding the fresh conn, registered read+write as accept leaves it. -/
def loop7new : Loop :=
  { idx := 0, fdconns := [(7, conn7new)], count := 1, poll := [(7, EvMask.readWrite)] }

/-- An empty loop. -/
def loop0 : Loop := { idx := 0, fdconns := [], count := 0, poll := [(5, EvMask.read)] }

/-- An accept outcome that yields fd 9. -/
def arOk : AcceptRes := { nfd := 9, sa := Sockaddr.inet4 80 10 0 0 1, err := none, snbErr := none }

/-- An accept outcome that fails with EAGAIN. -/
def arAgain : AcceptRes :=
  { nfd := 9, sa := Sockaddr.otherFamily, err := some Err.eagain, snbErr := none }

/-- A recvfrom outcome delivering one byte from an inet4 sender. -/
def rrOne : RecvRes := { bytes := [9], sa := Sockaddr.inet4 80 1 2 3 4, err := none }

/-- An empty recvfrom outcome. -/
def rrNil : RecvRes := { bytes := [], sa := Sockaddr.otherFamily, err := none }

/-- A fixed dispatch environment for the dispatch-order witness. -/
def envW : DispatchEnv :=
  { ar := arOk, rr := rrNil, wr := { n := 0, err := some Err.eagain },
    rd := { bytes := [4, 5], err := none }, snbErr := none }

theorem restoreRead_lookup (l : Loop) (c : Conn) (fd : Nat) (hfd : c.fd = fd) :
    lookupFd (restoreRead l c).fdconns fd = some c := by
  subst hfd
  simp only [restoreRead]
  exact lookupFd_insertFd_self l.fdconns c.fd c

theorem restoreWrite_lookup (l : Loop) (c : Conn) (fd : Nat) (hfd : c.fd = fd) :
    lookupFd (restoreWrite l c).fdconns fd = some c := by
  subst hfd
  simp only [restoreWrite]
  exact lookupFd_insertFd_self l.fdconns c.fd c

theorem restoreRead_post (l : Loop) (c : Conn) (fd : Nat) (hfd : c.fd = fd)
    (h : ¬(c.out = [] ∧ c.action = Action.None) → maskOf l fd = some EvMask.readWrite) :
    ∀ c2, lookupFd (restoreRead l c).fdconns fd = some c2 →
      maskOK (maskOf (restoreRead l c) fd) c2 := by
  subst hfd
  intro c2 h2
  rw [restoreRead_lookup l c c.fd rfl] at h2
  obtain rfl : c = c2 := Option.some.inj h2
  by_cases hc : c.out = [] ∧ c.action = Action.None
  · simp only [maskOK, restoreRead, maskOf, if_pos hc]
    exact lookupFd_insertFd_self l.poll c.fd EvMask.read
  · simp only [maskOK, restoreRead, maskOf, if_neg hc]
    exact h hc

theorem restoreWrite_post (l : Loop) (c : Conn) (fd : Nat) (hfd : c.fd = fd)
    (h : maskOf l fd = some EvMask.read) :
    ∀ c2, lookupFd (restoreWrite l c).fdconns fd = some c2 →
      maskOK (maskOf (restoreWrite l c) fd) c2 := by
  subst hfd
  intro c2 h2
  rw [restoreWrite_lookup l c c.fd rfl] at h2
  obtain rfl : c = c2 := Option.some.inj h2
  by_cases hc : c.out = [] ∧ c.action = Action.None
  · have hcond : ¬(c.out ≠ [] ∨ c.action ≠ Action.None) := by
      intro hor
      cases hor with
      | inl h1 => exact h1 hc.1
      | inr h1 => exact h1 hc.2
    simp only [maskOK, restoreWrite, maskOf, if_neg hcond, if_pos hc]
    exact h
  · have hcond : c.out ≠ [] ∨ c.action ≠ Action.None := by
      by_contra hno
      push_neg at hno
      exact hc ⟨hno.1, hno.2⟩
    simp only [maskOK, restoreWrite, maskOf, if_pos hcond, if_neg hc]
    exact lookupFd_insertFd_self l.poll c.fd EvMask.readWrite

theorem restoreWrite_rw (l : Loop) (c : Conn) (fd : Nat) (hfd : c.fd = fd)
    (hne : ¬(c.out = [] ∧ c.action = Action.None)) :
    maskOf (restoreWrite l c) fd = some EvMask.readWrite := by
  subst hfd
  have hcond : c.out ≠ [] ∨ c.action ≠ Action.None := by
    by_contra hno
    push_neg at hno
    exact hne ⟨hno.1, hno.2⟩
  simp only [restoreWrite, maskOf, if_pos hcond]
  exact lookupFd_insertFd_self l.poll c.fd EvMask.readWrite

theorem restoreWrite_post_rw (l : Loop) (c : Conn) (fd : Nat) (hfd : c.fd = fd) :
    ∀ c2, lookupFd (restoreWrite l c).fdconns fd = some c2 →
      ¬(c2.out = [] ∧ c2.action = Action.None) →
      maskOf (restoreWrite l c) fd = some EvMask.readWrite := by
  subst hfd
  intro c2 h2 hne
  rw [restoreWrite_lookup l c c.fd rfl] at h2
  obtain rfl : c = c2 := Option.some.inj h2
  exact restoreWrite_rw l c c.fd rfl hne

theorem loopCloseConn_fdconns (s : Server) (l : Loop) (c : Conn) (err : Option Err) :
    (loopCloseConn s l c err).1.fdconns = eraseFd l.fdconns c.fd := by
  unfold loopCloseConn
  split
  · rfl
  · split <;> rfl

theorem loopCloseConn_count (s : Server) (l : Loop) (c : Conn) (err : Option Err) :
    (loopCloseConn s l c err).1.count = l.count - 1 := by
  unfold loopCloseConn
  split
  · rfl
  · split <;> rfl

theorem loopCloseConn_lookup_none (s : Server) (l : Loop) (c : Conn) (err : Option Err)
    (hnd : (l.fdconns.map Prod.fst).Nodup) :
    lookupFd (loopCloseConn s l c err).1.fdconns c.fd = none := by
  rw [loopCloseConn_fdconns]
  exact lookupFd_eraseFd_self l.fdconns c.fd hnd

theorem loopCloseConn_closeFd_mem (s : Server) (l : Loop) (c : Conn) (err : Option Err) :
    Ev.closeFd c.fd ∈ (loopCloseConn s l c err).2.1 := by
  unfold loopCloseConn
  split
  · simp
  · split <;> simp

theorem loopCloseConn_closedCB_mem (s : Server) (l : Loop) (c : Conn) (err : Option Err)
    (f : Conn → Option Err → Action) (hf : s.events.closed = some f) :
    Ev.closedCB c err ∈ (loopCloseConn s l c err).2.1 := by
  unfold loopCloseConn
  split
  · rename_i heq
    rw [hf] at heq
    exact Option.noConfusion heq
  · split <;> simp

theorem loopDetachConn_fdconns (s : Server) (l : Loop) (c : Conn) (err : Option Err)
    (snb : Option Nat) :
    (loopDetachConn s l c err snb).1.fdconns = eraseFd l.fdconns c.fd := by
  unfold loopDetachConn
  split
  · exact loopCloseConn_fdconns s l c err
  · split
    · rfl
    · split <;> rfl

theorem loopDetachConn_count (s : Server) (l : Loop) (c : Conn) (err : Option Err)
    (snb : Option Nat) :
    (loopDetachConn s l c err snb).1.count = l.count - 1 := by
  unfold loopDetachConn
  split
  · exact loopCloseConn_count s l c err
  · split
    · rfl
    · split <;> rfl

theorem loopDetachConn_lookup_none (s : Server) (l : Loop) (c : Conn) (err : Option Err)
    (snb : Option Nat) (hnd : (l.fdconns.map Prod.fst).Nodup) :
    lookupFd (loopDetachConn s l c err snb).1.fdconns c.fd = none := by
  rw [loopDetachConn_fdconns]
  exact lookupFd_eraseFd_self l.fdconns c.fd hnd

theorem loopUDPRead_state (s : Server) (l : Loop) (lnidx fd : Nat) (r : RecvRes) :
    (loopUDPRead s l lnidx fd r).1 = l := by
  unfold loopUDPRead
  split
  · rfl
  · cases s.events.data <;> rfl

theorem loopRead_close (s : Server) (l : Loop) (c : Conn) (rd : ReadRes)
    (hcond : rd.bytes.length = 0 ∨ rd.err.isSome = true)
    (hne : ¬(rd.err = some Err.eagain)) :
    loopRead s l c rd = loopCloseConn s l c rd.err := by
  simp only [loopRead]
  rw [if_pos hcond, if_neg hne]

theorem loopRead_again (s : Server) (l : Loop) (c : Conn) (rd : ReadRes)
    (hcond : rd.bytes.length = 0 ∨ rd.err.isSome = true)
    (heq : rd.err = some Err.eagain) :
    loopRead s l c rd = (l, [], none) := by
  simp only [loopRead]
  rw [if_pos hcond, if_pos heq]

/-- Claim C2: every readiness dispatch with a non-sentinel fd evaluates
the switch in order, stopping at the first match: an unmapped fd runs the
accept path, a mapped conn with opened false runs the open path, else a
non-empty out runs the write path, else a pending action runs the action
path, else the read path runs. -/
theorem claimC2_dispatch_order (s : Server) (l : Loop) (fd : Nat) (note : Note)
    (env : DispatchEnv) (c : Conn) (hfd : fd ≠ 0) :
    (lookupFd l.fdconns fd = none →
      dispatch s l fd note env = loopAccept s l fd env.ar env.rr) ∧
    (lookupFd l.fdconns fd = some c →
      (c.opened = false → dispatch s l fd note env = (s.accepted, loopOpened s l c)) ∧
      (c.opened = true → c.out ≠ [] →
        dispatch s l fd note env = (s.accepted, loopWrite s l c env.wr)) ∧
      (c.opened = true → c.out = [] → c.action ≠ Action.None →
        dispatch s l fd note env = (s.accepted, loopAction s l c env.snbErr)) ∧
      (c.opened = true → c.out = [] → c.action = Action.None →
        dispatch s l fd note env = (s.accepted, loopRead s l c env.rd))) := by
  constructor
  · intro h
    simp [dispatch, hfd, h]
  · intro h
    refine ⟨?_, ?_, ?_, ?_⟩
    · intro hop
      simp [dispatch, hfd, h, hop]
    · intro hop hout
      have hlen : 0 < c.out.length := List.length_pos.mpr hout
      simp [dispatch, hfd, h, hop, hlen]
    · intro hop hout hact
      simp [dispatch, hfd, h, hop, hout, hact]
    · intro hop hout hact
      simp [dispatch, hfd, h, hop, hout, hact]

/-- Claim C2 witness: on a loop holding an opened idle conn at fd 7, the
dispatch for fd 7 runs the read path. -/
theorem claimC2_witness :
    (7 : Nat) ≠ 0 ∧ lookupFd loop7.fdconns 7 = some conn7 ∧ conn7.opened = true ∧
    conn7.out = [] ∧ conn7.action = Action.None ∧
    dispatch srvEcho loop7 7 (Note.duration 0) envW =
      (srvEcho.accepted, loopRead srvEcho loop7 conn7 envW.rd) := by
  refine ⟨by decide, by decide, by decide, by decide, by decide, ?_⟩
  exact (((claimC2_dispatch_order srvEcho loop7 7 (Note.duration 0) envW conn7
    (by decide)).2 (by decide)).2.2.2) (by decide) (by decide) (by decide)

/-- Claim C8: a wake note whose conn no longer matches the mapped conn at
its fd is dropped with no callback and no state change; a matching wake
runs the wake path, whose Data invocation is Data(conn, empty). -/
theorem claimC8_stale_wake (s : Server) (l : Loop) (c : Conn)
    (f : Conn → List Nat → List Nat × Action) :
    (lookupFd l.fdconns c.fd ≠ some c →
      loopNote s l (Note.connNote c) = (l, [], none)) ∧
    (lookupFd l.fdconns c.fd = some c →
      loopNote s l (Note.connNote c) = loopWake s l c ∧
      (s.events.data = some f →
        (loopNote s l (Note.connNote c)).2.1 = [Ev.dataCB c [] true])) := by
  constructor
  · intro h
    simp only [loopNote, if_pos h]
  · intro h
    have hne : ¬(lookupFd l.fdconns c.fd ≠ some c) := fun h2 => h2 h
    refine ⟨by simp only [loopNote, if_neg hne], ?_⟩
    intro hdata
    simp only [loopNote, if_neg hne, loopWake, hdata]

/-- Claim C8 witness: a wake carrying a conn that differs from the mapped
one at fd 7 is dropped. -/
theorem claimC8_witness :
    lookupFd loop7.fdconns conn7tail.fd ≠ some conn7tail ∧
    loopNote srvEcho loop7 (Note.connNote conn7tail) = (loop7, [], none) :=
  ⟨by decide, (claimC8_stale_wake srvEcho loop7 conn7tail
    (fun _ bs => (bs, Action.None))).1 (by decide)⟩

/-- Claim C9: when out still holds an unwritten tail and Data (via the
wake path or the read path) returns non-empty bytes, the new bytes
replace the tail rather than being appended after it. -/
theorem claimC9_overwrite_tail (s : Server) (l : Loop) (c : Conn)
    (f : Conn → List Nat → List Nat × Action) (rd : ReadRes)
    (hdata : s.events.data = some f) (htail : c.out ≠ []) :
    ((f c []).1 ≠ [] →
      lookupFd (loopWake s l c).1.fdconns c.fd =
        some { c with action := (f c []).2, out := (f c []).1 } ∧
      (f c []).1 ≠ c.out ++ (f c []).1) ∧
    (rd.err = none → rd.bytes ≠ [] → (f c rd.bytes).1 ≠ [] →
      lookupFd (loopRead s l c rd).1.fdconns c.fd =
        some { c with action := (f c rd.bytes).2, out := (f c rd.bytes).1 } ∧
      (f c rd.bytes).1 ≠ c.out ++ (f c rd.bytes).1) := by
  have key : ∀ ys : List Nat, ys ≠ c.out ++ ys := by
    intro ys heq
    have hlen := congrArg List.length heq
    rw [List.length_append] at hlen
    have h0 : c.out.length = 0 := by omega
    exact htail (List.length_eq_zero.mp h0)
  constructor
  · intro hne
    have hl : 0 < (f c []).1.length := List.length_pos.mpr hne
    refine ⟨?_, key _⟩
    simp only [loopWake, hdata, if_pos hl]
    exact restoreWrite_lookup l _ c.fd rfl
  · intro herr hbytes hne
    have hcond : ¬(rd.bytes.length = 0 ∨ rd.err.isSome = true) := by
      simp [herr, hbytes]
    have hl : 0 < (f c rd.bytes).1.length := List.length_pos.mpr hne
    refine ⟨?_, key _⟩
    simp only [loopRead, if_neg hcond, hdata, if_pos hl]
    exact restoreWrite_lookup l _ c.fd rfl

/-- Claim C9 witness: on a conn with tail [1, 2, 3] a wake whose Data
returns [9, 9] leaves out = [9, 9], not the concatenation. -/
theorem claimC9_witness :
    conn7tail.out ≠ [] ∧
    lookupFd (loopWake srvPush loop7tail conn7tail).1.fdconns 7 =
      some { conn7tail with action := Action.None, out := [9, 9] } ∧
    ([9, 9] : List Nat) ≠ conn7tail.out ++ [9, 9] := by
  have h := (claimC9_overwrite_tail srvPush loop7tail conn7tail
      (fun _ _ => ([9, 9], Action.None)) { bytes := [], err := none } rfl (by decide)).1
      (by decide)
  exact ⟨by decide, h.1, h.2⟩

/-- Claim C10: with no Detached callback configured, the Detach path
degrades to the close path: the conn is removed from fdconns, its fd is
closed and Closed fires. -/
theorem claimC10_detach_degrade (s : Server) (l : Loop) (c : Conn) (err : Option Err)
    (snb : Option Nat) (hdet : s.events.detached = none)
    (hnd : (l.fdconns.map Prod.fst).Nodup) :
    loopDetachConn s l c err snb = loopCloseConn s l c err ∧
    lookupFd (loopDetachConn s l c err snb).1.fdconns c.fd = none ∧
    Ev.closeFd c.fd ∈ (loopDetachConn s l c err snb).2.1 ∧
    (∀ f, s.events.closed = some f →
      Ev.closedCB c err ∈ (loopDetachConn s l c err snb).2.1) := by
  have heq : loopDetachConn s l c err snb = loopCloseConn s l c err := by
    unfold loopDetachConn
    rw [hdet]
  refine ⟨heq, ?_, ?_, ?_⟩
  · rw [heq]
    exact loopCloseConn_lookup_none s l c err hnd
  · rw [heq]
    exact loopCloseConn_closeFd_mem s l c err
  · intro f hf
    rw [heq]
    exact loopCloseConn_closedCB_mem s l c err f hf

/-- Claim C10 witness: the echo server has no Detached callback, so
detaching the idle conn closes it. -/
theorem claimC10_witness :
    srvEcho.events.detached = none ∧
    loopDetachConn srvEcho loop7 conn7 none none = loopCloseConn srvEcho loop7 conn7 none ∧
    lookupFd (loopDetachConn srvEcho loop7 conn7 none none).1.fdconns 7 = none := by
  have h := claimC10_detach_degrade srvEcho loop7 conn7 none none rfl (by decide)
  exact ⟨rfl, h.1, h.2.1⟩

/-- Claim C4: the write path attempts one write of all pending bytes;
full drain empties out, a partial write of n bytes keeps exactly the
unwritten tail, EAGAIN leaves the loop untouched with the conn open, and
any other error closes the conn and fires Closed with that error. -/
theorem claimC4_write (s : Server) (l : Loop) (c : Conn) (w : WriteRes)
    (hout : c.out ≠ []) (hnd : (l.fdconns.map Prod.fst).Nodup) :
    Ev.writeSys c.fd c.out ∈ (loopWrite s l c w).2.1 ∧
    (w.err = none → w.n = c.out.length →
      lookupFd (loopWrite s l c w).1.fdconns c.fd = some { c with out := [] }) ∧
    (w.err = none → w.n < c.out.length →
      lookupFd (loopWrite s l c w).1.fdconns c.fd = some { c with out := c.out.drop w.n }) ∧
    (w.err = some Err.eagain →
      (loopWrite s l c w).1 = l ∧ (loopWrite s l c w).2.2 = none) ∧
    (∀ code, w.err = some (Err.other code) →
      lookupFd (loopWrite s l c w).1.fdconns c.fd = none ∧
      Ev.closeFd c.fd ∈ (loopWrite s l c w).2.1 ∧
      (∀ f, s.events.closed = some f →
        Ev.closedCB c (some (Err.other code)) ∈ (loopWrite s l c w).2.1)) := by
  obtain ⟨n, werr⟩ := w
  refine ⟨?_, ?_, ?_, ?_, ?_⟩
  · cases werr with
    | none =>
      simp only [loopWrite]
      by_cases hpw : s.events.hasPreWrite <;> simp [hpw]
    | some e =>
      cases e with
      | eagain =>
        simp only [loopWrite]
        by_cases hpw : s.events.hasPreWrite <;> simp [hpw]
      | other code =>
        simp only [loopWrite]
        by_cases hpw : s.events.hasPreWrite <;> simp [hpw]
  · intro he hn
    cases he
    simp only [loopWrite, if_pos hn]
    exact restoreRead_lookup l _ c.fd rfl
  · intro he hn
    cases he
    simp only [loopWrite, if_neg (Nat.ne_of_lt hn)]
    exact restoreRead_lookup l _ c.fd rfl
  · intro he
    cases he
    exact ⟨rfl, rfl⟩
  · intro code he
    cases he
    simp only [loopWrite]
    refine ⟨?_, ?_, ?_⟩
    · exact loopCloseConn_lookup_none s l c (some (Err.other code)) hnd
    · exact List.mem_append.mpr (Or.inr (loopCloseConn_closeFd_mem s l c (some (Err.other code))))
    · intro f hf
      exact List.mem_append.mpr
        (Or.inr (loopCloseConn_closedCB_mem s l c (some (Err.other code)) f hf))

/-- Claim C4 witness: a partial write of 1 of the 3 pending bytes keeps
exactly the unwritten tail. -/
theorem claimC4_witness :
    conn7tail.out ≠ [] ∧ (1 : Nat) < conn7tail.out.length ∧
    lookupFd (loopWrite srvEcho loop7tail conn7tail { n := 1, err := none }).1.fdconns 7 =
      some { conn7tail with out := [2, 3] } := by
  have h := (claimC4_write srvEcho loop7tail conn7tail { n := 1, err := none }
      (by decide) (by decide)).2.2.1 rfl (by decide)
  exact ⟨by decide, by decide, h⟩

/-- Claim C6: the read path reads once into the shared buffer; zero bytes
or a non-EAGAIN error closes the conn and fires Closed; EAGAIN returns
with nothing changed; a successful read makes exactly one Data call with
the bytes read (a fresh copy unless reuse is set) and installs the
returned bytes and action as out and action. -/
theorem claimC6_read (s : Server) (l : Loop) (c : Conn) (rd : ReadRes)
    (hnd : (l.fdconns.map Prod.fst).Nodup) (hout : c.out = []) :
    (rd.bytes = [] → rd.err = none →
      lookupFd (loopRead s l c rd).1.fdconns c.fd = none ∧
      Ev.closeFd c.fd ∈ (loopRead s l c rd).2.1 ∧
      (∀ f, s.events.closed = some f → Ev.closedCB c none ∈ (loopRead s l c rd).2.1)) ∧
    (∀ code, rd.err = some (Err.other code) →
      lookupFd (loopRead s l c rd).1.fdconns c.fd = none ∧
      Ev.closeFd c.fd ∈ (loopRead s l c rd).2.1 ∧
      (∀ f, s.events.closed = some f →
        Ev.closedCB c (some (Err.other code)) ∈ (loopRead s l c rd).2.1)) ∧
    (rd.err = some Err.eagain → loopRead s l c rd = (l, [], none)) ∧
    (∀ f, s.events.data = some f → rd.err = none → rd.bytes ≠ [] →
      (loopRead s l c rd).2.1 = [Ev.dataCB c rd.bytes (!c.reuse)] ∧
      lookupFd (loopRead s l c rd).1.fdconns c.fd =
        some { c with action := (f c rd.bytes).2, out := (f c rd.bytes).1 }) := by
  refine ⟨?_, ?_, ?_, ?_⟩
  · intro hb he
    have hcond : rd.bytes.length = 0 ∨ rd.err.isSome = true := Or.inl (by rw [hb]; rfl)
    have hne : ¬(rd.err = some Err.eagain) := by rw [he]; simp
    rw [loopRead_close s l c rd hcond hne, he]
    exact ⟨loopCloseConn_lookup_none s l c none hnd,
           loopCloseConn_closeFd_mem s l c none,
           fun f hf => loopCloseConn_closedCB_mem s l c none f hf⟩
  · intro code he
    have hcond : rd.bytes.length = 0 ∨ rd.err.isSome = true := Or.inr (by rw [he]; rfl)
    have hne : ¬(rd.err = some Err.eagain) := by rw [he]; simp
    rw [loopRead_close s l c rd hcond hne, he]
    exact ⟨loopCloseConn_lookup_none s l c (some (Err.other code)) hnd,
           loopCloseConn_closeFd_mem s l c (some (Err.other code)),
           fun f hf => loopCloseConn_closedCB_mem s l c (some (Err.other code)) f hf⟩
  · intro he
    exact loopRead_again s l c rd (Or.inr (by rw [he]; rfl)) he
  · intro f hdata he hb
    have hcond : ¬(rd.bytes.length = 0 ∨ rd.err.isSome = true) := by
      simp [he, hb]
    constructor
    · simp only [loopRead, if_neg hcond, hdata]
    · simp only [loopRead, if_neg hcond, hdata]
      by_cases hdl : (f c rd.bytes).1.length > 0
      · rw [if_pos hdl]
        exact restoreWrite_lookup l _ c.fd rfl
      · have hd1 : (f c rd.bytes).1 = [] :=
          List.length_eq_zero.mp (Nat.eq_zero_of_not_pos hdl)
        rw [if_neg hdl, hd1]
        have hrec : ({ c with action := (f c rd.bytes).2, out := ([] : List Nat) } : Conn)
            = { c with action := (f c rd.bytes).2 } := by
          cases c
          simp_all
        rw [hrec]
        exact restoreWrite_lookup l _ c.fd rfl

/-- Claim C6 witness: echoing two bytes off the idle conn produces one
Data call with a fresh copy and installs the echoed bytes as out. -/
theorem claimC6_witness :
    conn7.out = [] ∧
    (loopRead srvEcho loop7 conn7 { bytes := [4, 5], err := none }).2.1 =
      [Ev.dataCB conn7 [4, 5] true] ∧
    lookupFd (loopRead srvEcho loop7 conn7 { bytes := [4, 5], err := none }).1.fdconns 7 =
      some { conn7 with action := Action.None, out := [4, 5] } := by
  have h := (claimC6_read srvEcho loop7 conn7 { bytes := [4, 5], err := none }
      (by decide) (by decide)).2.2.2 (fun _ bs => (bs, Action.None)) rfl rfl (by decide)
  exact ⟨by decide, h.1, h.2⟩

/-- Claim C7: a successfully received UDP datagram triggers exactly one
Data call, on a synthesized ephemeral conn carrying the listener's local
address and the sender's remote address; the returned bytes are sent back
to the original sender and nothing is stored in fdconns. -/
theorem claimC7_udp (s : Server) (l : Loop) (lnidx fd : Nat) (rr : RecvRes)
    (f : Conn → List Nat → List Nat × Action)
    (hdata : s.events.data = some f) (herr : rr.err = none) (hbytes : rr.bytes ≠ []) :
    ((loopUDPRead s l lnidx fd rr).2.1.filter isDataCB) =
      [Ev.dataCB (udpConn s lnidx (sa6OfSockaddr rr.sa)) rr.bytes true] ∧
    (udpConn s lnidx (sa6OfSockaddr rr.sa)).localAddr =
      (s.lns[lnidx]?).map Listener.lnaddr ∧
    (udpConn s lnidx (sa6OfSockaddr rr.sa)).remoteAddr =
      some (sockaddrToAddr6 (sa6OfSockaddr rr.sa)) ∧
    ((f (udpConn s lnidx (sa6OfSockaddr rr.sa)) rr.bytes).1 ≠ [] →
      Ev.sendto fd (f (udpConn s lnidx (sa6OfSockaddr rr.sa)) rr.bytes).1 rr.sa ∈
        (loopUDPRead s l lnidx fd rr).2.1) ∧
    (loopUDPRead s l lnidx fd rr).1 = l := by
  have hcond : ¬(rr.err.isSome = true ∨ rr.bytes.length = 0) := by
    simp [herr, hbytes]
  refine ⟨?_, rfl, rfl, ?_, loopUDPRead_state s l lnidx fd rr⟩
  · simp only [loopUDPRead, if_neg hcond, hdata]
    by_cases hsend : (f (udpConn s lnidx (sa6OfSockaddr rr.sa)) rr.bytes).1.length > 0
    · rw [if_pos hsend]
      by_cases hpw : s.events.hasPreWrite <;> simp [hpw, isDataCB]
    · rw [if_neg hsend]
      simp [isDataCB]
  · intro hne
    have hl : (f (udpConn s lnidx (sa6OfSockaddr rr.sa)) rr.bytes).1.length > 0 :=
      List.length_pos.mpr hne
    simp only [loopUDPRead, if_neg hcond, hdata, if_pos hl]
    by_cases hpw : s.events.hasPreWrite <;> simp [hpw]

/-- Claim C7 witness: the echo server answers a one-byte datagram from an
inet4 sender with exactly one Data call and an unchanged loop. -/
theorem claimC7_witness :
    rrOne.err = none ∧ rrOne.bytes ≠ [] ∧
    ((loopUDPRead srvEcho loop0 1 6 rrOne).2.1.filter isDataCB) =
      [Ev.dataCB (udpConn srvEcho 1 (sa6OfSockaddr rrOne.sa)) rrOne.bytes true] ∧
    (loopUDPRead srvEcho loop0 1 6 rrOne).1 = loop0 := by
  have h := claimC7_udp srvEcho loop0 1 6 rrOne
    (fun _ bs => (bs, Action.None)) rfl rfl (by decide)
  exact ⟨rfl, by decide, h.1, h.2.2.2.2⟩

theorem acceptBody_state (s : Server) (l : Loop) (fd : Nat) (ar : AcceptRes) (rr : RecvRes)
    (i : Nat) (ln : Listener) :
    (acceptBody s l fd ar rr i ln).2.1 = l ∨
    ((acceptBody s l fd ar rr i ln).2.1.fdconns =
        insertFd l.fdconns ar.nfd { emptyConn with fd := ar.nfd, sa := ar.sa, lnidx := i } ∧
     (acceptBody s l fd ar rr i ln).2.1.count = l.count + 1) := by
  obtain ⟨nfd, sa, aerr, snb⟩ := ar
  unfold acceptBody
  by_cases hd : declines s l = true
  · rw [if_pos hd]
    exact Or.inl rfl
  · rw [if_neg hd]
    by_cases hp : ln.isPacket = true
    · rw [if_pos hp]
      exact Or.inl (loopUDPRead_state s l i fd rr)
    · rw [if_neg hp]
      cases aerr with
      | some e =>
        cases e with
        | eagain => exact Or.inl rfl
        | other code => exact Or.inl rfl
      | none =>
        cases snb with
        | some code => exact Or.inl rfl
        | none => exact Or.inr ⟨rfl, rfl⟩

theorem acceptGo_count (s : Server) (l : Loop) (fd : Nat) (ar : AcceptRes) (rr : RecvRes)
    (habs : lookupFd l.fdconns ar.nfd = none) (hok : countOK l) :
    ∀ (lns : List Listener) (i : Nat),
      countOK (loopAcceptGo s l fd ar rr i lns).2.1 ∧
      ((loopAcceptGo s l fd ar rr i lns).2.1.fdconns.length = l.fdconns.length ∧
         (loopAcceptGo s l fd ar rr i lns).2.1.count = l.count ∨
       (loopAcceptGo s l fd ar rr i lns).2.1.fdconns.length = l.fdconns.length + 1 ∧
         (loopAcceptGo s l fd ar rr i lns).2.1.count = l.count + 1) := by
  intro lns
  induction lns with
  | nil =>
    intro i
    exact ⟨hok, Or.inl ⟨rfl, rfl⟩⟩
  | cons ln rest ih =>
    intro i
    simp only [loopAcceptGo]
    by_cases h : ln.fd = fd
    · rw [if_pos h]
      rcases acceptBody_state s l fd ar rr i ln with heq | ⟨hf, hc⟩
      · rw [heq]
        exact ⟨hok, Or.inl ⟨rfl, rfl⟩⟩
      · have hl : (acceptBody s l fd ar rr i ln).2.1.fdconns.length = l.fdconns.length + 1 := by
          rw [hf]
          exact length_insertFd_of_absent l.fdconns ar.nfd _ habs
        refine ⟨?_, Or.inr ⟨hl, hc⟩⟩
        simp only [countOK] at hok ⊢
        omega
    · rw [if_neg h]
      exact ih (i + 1)

/-- Claim C3: loop.count equals the number of fdconns entries at every
quiescent point: loopAccept either leaves both unchanged or inserts the
conn and increments count by one, and the close and detach paths each
remove the entry and decrement count by one, so all three preserve the
invariant. -/
theorem claimC3_count (s : Server) (l : Loop) (c : Conn) (fd : Nat) (err : Option Err)
    (ar : AcceptRes) (rr : RecvRes) (snb : Option Nat) :
    (lookupFd l.fdconns ar.nfd = none → countOK l →
      countOK (loopAccept s l fd ar rr).2.1 ∧
      ((loopAccept s l fd ar rr).2.1.fdconns.length = l.fdconns.length ∧
         (loopAccept s l fd ar rr).2.1.count = l.count ∨
       (loopAccept s l fd ar rr).2.1.fdconns.length = l.fdconns.length + 1 ∧
         (loopAccept s l fd ar rr).2.1.count = l.count + 1)) ∧
    (∀ v, lookupFd l.fdconns c.fd = some v → countOK l →
      countOK (loopCloseConn s l c err).1 ∧
      (loopCloseConn s l c err).1.fdconns.length + 1 = l.fdconns.length ∧
      (loopCloseConn s l c err).1.count = l.count - 1) ∧
    (∀ v, lookupFd l.fdconns c.fd = some v → countOK l →
      countOK (loopDetachConn s l c err snb).1 ∧
      (loopDetachConn s l c err snb).1.fdconns.length + 1 = l.fdconns.length ∧
      (loopDetachConn s l c err snb).1.count = l.count - 1) := by
  refine ⟨?_, ?_, ?_⟩
  · intro habs hok
    exact acceptGo_count s l fd ar rr habs hok s.lns 0
  · intro v hv hok
    have h1 : (loopCloseConn s l c err).1.fdconns.length + 1 = l.fdconns.length := by
      rw [loopCloseConn_fdconns]
      exact length_eraseFd_of_mem l.fdconns c.fd v hv
    have h2 := loopCloseConn_count s l c err
    refine ⟨?_, h1, h2⟩
    simp only [countOK] at hok ⊢
    omega
  · intro v hv hok
    have h1 : (loopDetachConn s l c err snb).1.fdconns.length + 1 = l.fdconns.length := by
      rw [loopDetachConn_fdconns]
      exact length_eraseFd_of_mem l.fdconns c.fd v hv
    have h2 := loopDetachConn_count s l c err snb
    refine ⟨?_, h1, h2⟩
    simp only [countOK] at hok ⊢
    omega

/-- Claim C3 witness: a successful accept on the empty loop inserts one
conn and bumps count to 1, preserving the invariant. -/
theorem claimC3_witness :
    lookupFd loop0.fdconns arOk.nfd = none ∧ countOK loop0 ∧
    (countOK (loopAccept srvEcho loop0 5 arOk rrNil).2.1 ∧
     ((loopAccept srvEcho loop0 5 arOk rrNil).2.1.fdconns.length = loop0.fdconns.length ∧
        (loopAccept srvEcho loop0 5 arOk rrNil).2.1.count = loop0.count ∨
      (loopAccept srvEcho loop0 5 arOk rrNil).2.1.fdconns.length = loop0.fdconns.length + 1 ∧
        (loopAccept srvEcho loop0 5 arOk rrNil).2.1.count = loop0.count + 1)) :=
  ⟨by decide, by decide,
   (claimC3_count srvEcho loop0 conn7 5 none arOk rrNil none).1 (by decide) (by decide)⟩

theorem acceptGo_at (s : Server) (l : Loop) (fd : Nat) (ar : AcceptRes) (rr : RecvRes) :
    ∀ (lns : List Listener) (j i : Nat) (ln : Listener),
      lns[j]? = some ln → ln.fd = fd →
      (∀ k, k < j → ∀ ln2, lns[k]? = some ln2 → ln2.fd ≠ fd) →
      loopAcceptGo s l fd ar rr i lns = acceptBody s l fd ar rr (i + j) ln := by
  intro lns
  induction lns with
  | nil =>
    intro j i ln hj
    simp at hj
  | cons hd tl ih =>
    intro j i ln hj hfd hbefore
    cases j with
    | zero =>
      simp only [List.getElem?_cons_zero] at hj
      obtain rfl : hd = ln := Option.some.inj hj
      simp only [loopAcceptGo, if_pos hfd, Nat.add_zero]
    | succ j2 =>
      have hhd : hd.fd ≠ fd := hbefore 0 (Nat.succ_pos j2) hd (by simp)
      simp only [loopAcceptGo, if_neg hhd]
      have hrec := ih j2 (i + 1) ln (by simpa using hj) hfd
        (fun k hk ln2 h2 => hbefore (k + 1) (Nat.succ_lt_succ hk) ln2 (by simpa using h2))
      rw [hrec]
      have harith : i + 1 + j2 = i + (j2 + 1) := by omega
      rw [harith]

/-- Claim C5 (amended): in round-robin mode with more than one loop, a
loop on which a listener becomes readable declines the accept, changing
nothing, when the counter modulo the loop count does not select it; when
selected it atomically increments the shared counter exactly once,
before the accept attempt, whether or not the attempt produces a
connection. -/
theorem claimC5_roundrobin (s : Server) (l : Loop) (fd j : Nat) (ln : Listener)
    (ar : AcceptRes) (rr : RecvRes)
    (hbal : s.balance = LoadBalance.RoundRobin)
    (hN : 1 < s.loops.length)
    (hj : s.lns[j]? = some ln) (hlnfd : ln.fd = fd)
    (hfirst : ∀ k, k < j → ∀ ln2, s.lns[k]? = some ln2 → ln2.fd ≠ fd) :
    (Int.tmod (goInt64 s.accepted) ((s.loops.length : Int)) ≠ (l.idx : Int) →
      loopAccept s l fd ar rr = (s.accepted, l, [], none)) ∧
    (Int.tmod (goInt64 s.accepted) ((s.loops.length : Int)) = (l.idx : Int) →
      (loopAccept s l fd ar rr).1 = (s.accepted + 1) % 2 ^ 64) := by
  have hgo : loopAccept s l fd ar rr = acceptBody s l fd ar rr (0 + j) ln :=
    acceptGo_at s l fd ar rr s.lns j 0 ln hj hlnfd hfirst
  constructor
  · intro hmod
    have hdecl : declines s l = true := by
      unfold declines
      rw [if_pos hN, hbal]
      exact decide_eq_true hmod
    rw [hgo]
    unfold acceptBody
    rw [if_pos hdecl]
  · intro hmod
    have hdecl : ¬(declines s l = true) := by
      unfold declines
      rw [if_pos hN, hbal]
      simp [hmod]
    have hacc : acceptedAfter s = (s.accepted + 1) % 2 ^ 64 := by
      unfold acceptedAfter
      rw [if_pos ⟨hN, hbal⟩]
    obtain ⟨nfd, sa, aerr, snb⟩ := ar
    rw [hgo]
    unfold acceptBody
    rw [if_neg hdecl]
    by_cases hp : ln.isPacket = true
    · rw [if_pos hp]
      exact hacc
    · rw [if_neg hp]
      cases aerr with
      | some e => cases e with
        | eagain => exact hacc
        | other code => exact hacc
      | none =>
        cases snb with
        | some code => exact hacc
        | none => exact hacc

/-- Claim C5 counterexample: two loops in round-robin, loop 0 selected
(0 mod 2 = 0), but accept(2) returns EAGAIN: no connection is produced
and nothing is stored, yet the shared counter was already incremented
to 1 — refuting that the counter is only incremented on acceptance. -/
theorem claimC5_counterexample :
    (loopAccept srvRR loop0 5 arAgain rrNil).1 = 1 ∧
    (loopAccept srvRR loop0 5 arAgain rrNil).2.1.fdconns = [] ∧
    (loopAccept srvRR loop0 5 arAgain rrNil).2.1.count = 0 ∧
    (loopAccept srvRR loop0 5 arAgain rrNil).2.2.2 = none := by
  decide

/-- Claim C5 witness: the selected loop of the two-loop round-robin
server increments the counter to 1. -/
theorem claimC5_witness :
    srvRR.balance = LoadBalance.RoundRobin ∧ 1 < srvRR.loops.length ∧
    Int.tmod (goInt64 srvRR.accepted) ((srvRR.loops.length : Int)) = (loop0.idx : Int) ∧
    (loopAccept srvRR loop0 5 arOk rrNil).1 = (srvRR.accepted + 1) % 2 ^ 64 := by
  refine ⟨rfl, by decide, by decide, ?_⟩
  exact (claimC5_roundrobin srvRR loop0 5 0 ln5 arOk rrNil rfl (by decide) rfl rfl
    (fun k hk ln2 h2 => absurd hk (Nat.not_lt_zero k))).2 (by decide)

/-- Claim C1 (amended): after the open, write, read and action steps, a
conn still mapped at its fd is registered read-only iff its out buffer is
empty and its action is None; after a wake step the read+write direction
still holds (non-empty out or a pending action forces read+write), but
the wake path never downgrades to read-only, so a wake that clears the
pending state can leave a stale read+write registration. -/
theorem claimC1_mask_invariant (s : Server) (l : Loop) (c : Conn) (k : StepKind)
    (hnd : (l.fdconns.map Prod.fst).Nodup)
    (hm : lookupFd l.fdconns c.fd = some c)
    (hpre : stepPre l c k) :
    stepPost k c.fd (runStep s l c k).1 := by
  cases k with
  | openS =>
    intro c2 h2
    simp only [runStep] at h2 ⊢
    rcases hop : s.events.opened with _ | f
    · simp only [loopOpened, hop] at h2 ⊢
      refine restoreRead_post l _ c.fd ?_ ?_ c2 h2
      · rfl
      · intro _
        exact hpre
    · simp only [loopOpened, hop] at h2 ⊢
      refine restoreRead_post l _ c.fd ?_ ?_ c2 h2
      · split <;> rfl
      · intro _
        exact hpre
  | writeS w =>
    obtain ⟨ho, hmk⟩ := hpre
    have hrw : maskOf l c.fd = some EvMask.readWrite := by
      have hp : maskOf l c.fd =
          some (if c.out = [] ∧ c.action = Action.None then EvMask.read
                else EvMask.readWrite) := hmk
      rw [if_neg (fun hand => ho hand.1)] at hp
      exact hp
    obtain ⟨n, werr⟩ := w
    intro c2 h2
    simp only [runStep] at h2 ⊢
    cases werr with
    | none =>
      simp only [loopWrite] at h2 ⊢
      refine restoreRead_post l _ c.fd ?_ ?_ c2 h2
      · split <;> rfl
      · intro _
        exact hrw
    | some e =>
      cases e with
      | eagain =>
        simp only [loopWrite] at h2 ⊢
        rw [hm] at h2
        obtain rfl : c = c2 := Option.some.inj h2
        exact hmk
      | other code =>
        simp only [loopWrite] at h2 ⊢
        rw [loopCloseConn_lookup_none s l c (some (Err.other code)) hnd] at h2
        exact Option.noConfusion h2
  | actionS snb =>
    intro c2 h2
    simp only [runStep] at h2 ⊢
    rcases hact : c.action with _ | _ | _ | _
    · simp only [loopAction, hact] at h2 ⊢
      refine restoreRead_post l _ c.fd ?_ ?_ c2 h2
      · rfl
      intro hne
      have ho : c.out ≠ [] := fun h0 => hne ⟨h0, rfl⟩
      have hp : maskOf l c.fd =
          some (if c.out = [] ∧ c.action = Action.None then EvMask.read
                else EvMask.readWrite) := hpre
      rw [if_neg (fun hand => ho hand.1)] at hp
      exact hp
    · simp only [loopAction, hact] at h2 ⊢
      rw [loopDetachConn_lookup_none s l c none snb hnd] at h2
      exact Option.noConfusion h2
    · simp only [loopAction, hact] at h2 ⊢
      rw [loopCloseConn_lookup_none s l c none hnd] at h2
      exact Option.noConfusion h2
    · simp only [loopAction, hact] at h2 ⊢
      rw [hm] at h2
      obtain rfl : c = c2 := Option.some.inj h2
      exact hpre
  | readS r =>
    obtain ⟨ho, ha, hmk⟩ := hpre
    have hrd : maskOf l c.fd = some EvMask.read := by
      have hp : maskOf l c.fd =
          some (if c.out = [] ∧ c.action = Action.None then EvMask.read
                else EvMask.readWrite) := hmk
      rw [if_pos ⟨ho, ha⟩] at hp
      exact hp
    obtain ⟨bytes, rerr⟩ := r
    intro c2 h2
    simp only [runStep] at h2 ⊢
    by_cases hcond : (bytes.length = 0 ∨ rerr.isSome = true)
    · by_cases hea : rerr = some Err.eagain
      · rw [loopRead_again s l c ⟨bytes, rerr⟩ hcond hea] at h2 ⊢
        rw [hm] at h2
        obtain rfl : c = c2 := Option.some.inj h2
        exact hmk
      · rw [loopRead_close s l c ⟨bytes, rerr⟩ hcond hea] at h2
        rw [loopCloseConn_lookup_none s l c rerr hnd] at h2
        exact Option.noConfusion h2
    · rcases hdata : s.events.data with _ | f
      · simp only [loopRead, if_neg hcond, hdata] at h2 ⊢
        exact restoreWrite_post l c c.fd rfl hrd c2 h2
      · simp only [loopRead, if_neg hcond, hdata] at h2 ⊢
        refine restoreWrite_post l _ c.fd ?_ hrd c2 h2
        split <;> rfl
  | wakeS =>
    intro c2 h2 hne
    simp only [runStep] at h2 ⊢
    rcases hdata : s.events.data with _ | f
    · simp only [loopWake, hdata] at h2 ⊢
      rw [hm] at h2
      obtain rfl : c = c2 := Option.some.inj h2
      have hp : maskOf l c.fd =
          some (if c.out = [] ∧ c.action = Action.None then EvMask.read
                else EvMask.readWrite) := hpre
      rw [if_neg hne] at hp
      exact hp
    · simp only [loopWake, hdata] at h2 ⊢
      refine restoreWrite_post_rw l _ c.fd ?_ c2 h2 hne
      split <;> rfl

/-- Claim C1 witness: the open step on a freshly accepted conn (mapped,
registered read+write) restores the invariant. -/
theorem claimC1_witness :
    (loop7new.fdconns.map Prod.fst).Nodup ∧
    lookupFd loop7new.fdconns conn7new.fd = some conn7new ∧
    maskOf loop7new conn7new.fd = some EvMask.readWrite ∧
    stepPost StepKind.openS conn7new.fd
      (runStep srvEcho loop7new conn7new StepKind.openS).1 := by
  refine ⟨by decide, by decide, by decide, ?_⟩
  exact claimC1_mask_invariant srvEcho loop7new conn7new StepKind.openS
    (by decide) (by decide) (by decide)

/-- Claim C1 counterexample: a conn with empty out and a pending Close is
registered read+write, exactly as the claimed invariant requires on entry;
a wake whose Data returns no bytes and action None then leaves the conn
open with out empty and action None, yet the registration stays
read+write — refuting the claimed iff for the wake step. -/
theorem claimC1_counterexample :
    maskOK (maskOf loop7close 7) conn7close ∧
    lookupFd (runStep srvQuiet loop7close conn7close StepKind.wakeS).1.fdconns 7 =
      some { conn7close with action := Action.None } ∧
    ({ conn7close with action := Action.None } : Conn).out = [] ∧
    ({ conn7close with action := Action.None } : Conn).action = Action.None ∧
    maskOf (runStep srvQuiet loop7close conn7close StepKind.wakeS).1 7 =
      some EvMask.readWrite := by
  decide

end Evio
